import Mathlib

/-!
Shallow embedding of the `kaplanz/gameboy` DMG emulator, limited to the
components checked here: the OAM-DMA engine (`core/src/hw/ppu/dma.rs`), the
SM83 `STOP` and 16-bit-add instructions
(`core/src/hw/cpu/sm83/insn/exec/{stop,addw}.rs`), the PPU HBlank mode step
(`core/src/hw/ppu/exec/hblank.rs`), the top-level clock demultiplexer
(`src/model/dmg/mod.rs`), and the memory bus with its unmapped fallback
(`core/src/dev/unmapped.rs` composed per `GameBoy::memmap`).

Machine integers are embedded as `Nat` with explicit `% 2^w` masking at the
points where the Rust types (`u8`, `u16`) mask: loads of 8-bit registers
apply `% 256`, 16-bit loads apply `% 65536`, wrapping additions reduce
modulo `2^16`.
-/

namespace GameboySpec

/-! ### OAM-DMA engine, from `core/src/hw/ppu/dma.rs` -/

/-- DMA Transfer State, embedding `enum State { Off, Req(u8), On { src, idx } }`. -/
inductive DmaState where
  | off : DmaState
  | req (src : Nat) : DmaState
  | on (src idx : Nat) : DmaState
deriving DecidableEq, Repr

/-- The `Dma` struct: the stored page byte, the transfer state, and the OAM
contents (the 160-byte object attribute memory the engine writes into,
embedded as a byte store). The shared bus is passed to `Dma.cycle` as a pure
read function. -/
@[ext]
structure Dma where
  page : Nat
  state : DmaState
  oam : Nat → Nat

/-- Embeds `Cell::<u8>::load for Dma`: reading `FF46` returns the stored page. -/
def Dma.load (d : Dma) : Nat := d.page

/-- Embeds `Cell::<u8>::store for Dma`: a write while `Off` requests a new
transfer; a write while `Req` or `On` is ignored (logged
"ignored request; already in progress"); the stored page is always updated. -/
def Dma.store (d : Dma) (value : Nat) : Dma :=
  let d :=
    match d.state with
    | DmaState.off => { d with state := DmaState.req value }
    | _ => d
  { d with page := value }

/-- Embeds `Machine::enabled for Dma`: `!matches!(self.state, State::Off)`. -/
def Dma.enabled (d : Dma) : Bool := decide (d.state ≠ DmaState.off)

/-- Embeds `Machine::cycle for Dma`. `none` models the
`panic!("OAM cycled while disabled")` on the `Off` branch. In the `On` branch
one byte is copied: `addr = u16::from_be_bytes([src, idx])`,
`oam[idx] := bus(addr)`, and `idx` is bumped with `saturating_add(1)`. -/
def Dma.cycle (bus : Nat → Nat) (d : Dma) : Option Dma :=
  match d.state with
  | DmaState.off => none
  | DmaState.req src => some { d with state := DmaState.on src 0 }
  | DmaState.on src idx =>
      let addr := src % 256 * 256 + idx % 256
      let data := bus addr
      let oam := fun k => if k = idx then data else d.oam k
      let idx := min (idx + 1) 255
      some { d with oam := oam,
                    state := if idx < 160 then DmaState.on src idx else DmaState.off }

/-- Iterates `Dma.cycle`; `none` propagates a panic. -/
def Dma.run (bus : Nat → Nat) : Nat → Dma → Option Dma
  | 0, d => some d
  | n + 1, d => (Dma.cycle bus d).bind (Dma.run bus n)

/-- Loop invariant for an active transfer: starting at index `t < 160`,
running `j` further cycles copies bytes `t, …, t + j - 1` and leaves the
engine `On` at index `t + j`, or `Off` once index 160 is reached. -/
theorem Dma.run_on (bus : Nat → Nat) (p : Nat) (hp : p < 256) :
    ∀ (j t : Nat) (d : Dma), t < 160 → t + j ≤ 160 → d.state = DmaState.on p t →
      Dma.run bus j d =
        some (Dma.mk d.page
          (if t + j < 160 then DmaState.on p (t + j) else DmaState.off)
          (fun k => if t ≤ k ∧ k < t + j then bus (p * 256 + k) else d.oam k)) := by
  intro j
  induction j with
  | zero =>
      intro t d ht _ hstate
      obtain ⟨pg, st, om⟩ := d
      simp only at hstate
      subst hstate
      simp only [Dma.run, Option.some.injEq, Dma.mk.injEq]
      refine ⟨trivial, ?_, ?_⟩
      · simp [ht]
      · funext k
        simp [show ¬ (t ≤ k ∧ k < t) from by omega]
  | succ j ih =>
      intro t d ht hle hstate
      obtain ⟨pg, st, om⟩ := d
      simp only at hstate
      subst hstate
      show (Dma.cycle bus _).bind (Dma.run bus j) = _
      simp only [Dma.cycle]
      rw [Nat.mod_eq_of_lt hp, Nat.mod_eq_of_lt (show t < 256 from by omega),
          show min (t + 1) 255 = t + 1 from by omega]
      rw [Option.some_bind]
      by_cases hnext : t + 1 < 160
      · rw [if_pos hnext, ih (t + 1) _ hnext (by omega) rfl]
        simp only [Option.some.injEq, Dma.mk.injEq]
        refine ⟨trivial, ?_, ?_⟩
        · rw [show t + 1 + j = t + (j + 1) from by omega]
        · funext k
          by_cases hk : k = t
          · simp [hk, show ¬ (t + 1 ≤ t ∧ t < t + 1 + j) from by omega,
                  show t ≤ t ∧ t < t + (j + 1) from by omega]
          · by_cases hk2 : t + 1 ≤ k ∧ k < t + 1 + j
            · simp [hk2, show t ≤ k ∧ k < t + (j + 1) from by omega]
            · simp [hk2, hk, show ¬ (t ≤ k ∧ k < t + (j + 1)) from by omega]
      · rw [if_neg hnext]
        have hj0 : j = 0 := by omega
        subst hj0
        have ht1 : t = 159 := by omega
        subst ht1
        simp only [Dma.run, Option.some.injEq, Dma.mk.injEq]
        refine ⟨trivial, ?_, ?_⟩
        · simp
        · funext k
          by_cases hk : k = 159
          · simp [hk]
          · simp [hk, show ¬ (159 ≤ k ∧ k < 159 + (0 + 1)) from by omega]

/-- C3: from `Requested(p)` the next cycle enters `Active` with page `p` and
index 0; after `j ≤ 160` further cycles the engine is `Active` at index `j`
(hence the index stays in `[0,160)` whenever active) or `Off` once `j = 160`,
having copied bytes `0, …, j - 1`; and after the start cycle plus 160 active
cycles (161 cycles from `Requested`) the engine is `Off` and
`OAM[i] = bus((p << 8) | i)` for the given `i < 160`. -/
theorem dma_requested_transfer (bus : Nat → Nat) (d : Dma) (p i j : Nat)
    (hstate : d.state = DmaState.req p) (hp : p < 256) (hi : i < 160) (hj : j ≤ 160) :
    Dma.cycle bus d = some { d with state := DmaState.on p 0 } ∧
    Dma.run bus j { d with state := DmaState.on p 0 } =
      some (Dma.mk d.page
        (if j < 160 then DmaState.on p j else DmaState.off)
        (fun k => if k < j then bus (p * 256 + k) else d.oam k)) ∧
    Dma.run bus 161 d =
      some (Dma.mk d.page DmaState.off
        (fun k => if k < 160 then bus (p * 256 + k) else d.oam k)) ∧
    (Dma.run bus 161 d).map (fun x => x.oam i) = some (bus (p * 256 + i)) := by
  obtain ⟨pg, st, om⟩ := d
  simp only at hstate
  subst hstate
  have hcycle : Dma.cycle bus (Dma.mk pg (DmaState.req p) om) =
      some (Dma.mk pg (DmaState.on p 0) om) := rfl
  have hrun : ∀ jj, jj ≤ 160 →
      Dma.run bus jj (Dma.mk pg (DmaState.on p 0) om) =
        some (Dma.mk pg
          (if jj < 160 then DmaState.on p jj else DmaState.off)
          (fun k => if k < jj then bus (p * 256 + k) else om k)) := by
    intro jj hjj
    rw [Dma.run_on bus p hp jj 0 _ (by omega) (by omega) rfl]
    simp only [Option.some.injEq, Dma.mk.injEq]
    refine ⟨trivial, by simp, ?_⟩
    funext k
    simp
  have h161 : Dma.run bus 161 (Dma.mk pg (DmaState.req p) om) =
      some (Dma.mk pg DmaState.off
        (fun k => if k < 160 then bus (p * 256 + k) else om k)) := by
    show (Dma.cycle bus _).bind (Dma.run bus 160) = _
    rw [hcycle, Option.some_bind, hrun 160 (by omega)]
    simp
  refine ⟨hcycle, hrun j hj, h161, ?_⟩
  rw [h161]
  simp [hi]

/-- C3 witness: a concrete transfer of page `0xC0` over the bus
`fun a => (a + 7) % 256`, checked at byte 5 and at the full 160-cycle run. -/
theorem dma_requested_transfer_witness :
    Dma.cycle (fun a => (a + 7) % 256) (Dma.mk 0 (DmaState.req 0xc0) (fun _ => 0)) =
      some { Dma.mk 0 (DmaState.req 0xc0) (fun _ => 0) with state := DmaState.on 0xc0 0 } ∧
    Dma.run (fun a => (a + 7) % 256) 160
        { Dma.mk 0 (DmaState.req 0xc0) (fun _ => 0) with state := DmaState.on 0xc0 0 } =
      some (Dma.mk 0
        (if 160 < 160 then DmaState.on 0xc0 160 else DmaState.off)
        (fun k => if k < 160 then (0xc0 * 256 + k + 7) % 256 else 0)) ∧
    Dma.run (fun a => (a + 7) % 256) 161 (Dma.mk 0 (DmaState.req 0xc0) (fun _ => 0)) =
      some (Dma.mk 0 DmaState.off
        (fun k => if k < 160 then (0xc0 * 256 + k + 7) % 256 else 0)) ∧
    (Dma.run (fun a => (a + 7) % 256) 161
        (Dma.mk 0 (DmaState.req 0xc0) (fun _ => 0))).map (fun x => x.oam 5) =
      some ((0xc0 * 256 + 5 + 7) % 256) :=
  dma_requested_transfer (fun a => (a + 7) % 256)
    (Dma.mk 0 (DmaState.req 0xc0) (fun _ => 0)) 0xc0 5 160
    rfl (by omega) (by omega) (by omega)

/-- C1 counterexample: with an in-progress transfer (`Active` at page `0x12`,
index 3), writing `0x55` to `FF46` leaves the transfer state unchanged -- the
engine does not move to `Requested(0x55)` as the claim states. -/
theorem dma_store_while_active_counterexample :
    (Dma.store (Dma.mk 0 (DmaState.on 0x12 3) (fun _ => 0)) 0x55).state =
      DmaState.on 0x12 3 ∧
    (Dma.store (Dma.mk 0 (DmaState.on 0x12 3) (fun _ => 0)) 0x55).state ≠
      DmaState.req 0x55 :=
  ⟨rfl, by decide⟩

/-- C1 (amended): a write to `FF46` while `Off` moves the engine to
`Requested(p)`; a write while `Requested` or `Active` leaves the transfer
state unchanged (the request is ignored); in every case the stored page
byte becomes `p`. -/
theorem dma_store_spec (d : Dma) (p : Nat) :
    (d.state = DmaState.off → Dma.store d p = { d with state := DmaState.req p, page := p }) ∧
    (d.state ≠ DmaState.off → Dma.store d p = { d with page := p }) ∧
    (Dma.store d p).page = p := by
  obtain ⟨pg, st, om⟩ := d
  cases st <;> simp [Dma.store]

/-- C1 witness: the amended transition checked on an `Off` engine and on the
page byte of the result. -/
theorem dma_store_spec_witness :
    ((Dma.mk 7 DmaState.off (fun _ => 0)).state = DmaState.off →
      Dma.store (Dma.mk 7 DmaState.off (fun _ => 0)) 0xc0 =
        { Dma.mk 7 DmaState.off (fun _ => 0) with state := DmaState.req 0xc0, page := 0xc0 }) ∧
    ((Dma.mk 7 DmaState.off (fun _ => 0)).state ≠ DmaState.off →
      Dma.store (Dma.mk 7 DmaState.off (fun _ => 0)) 0xc0 =
        { Dma.mk 7 DmaState.off (fun _ => 0) with page := 0xc0 }) ∧
    (Dma.store (Dma.mk 7 DmaState.off (fun _ => 0)) 0xc0).page = 0xc0 :=
  dma_store_spec (Dma.mk 7 DmaState.off (fun _ => 0)) 0xc0

/-- C9: reading `FF46` returns the last byte written, for every sequence of
writes and regardless of the transfer state: a fold of `store` over any write
sequence ending in `v` loads `v`, and a single `store` always updates the
stored page. -/
theorem dma_load_last_write (d : Dma) (vs : List Nat) (v : Nat) :
    Dma.load (List.foldl Dma.store d (vs ++ [v])) = v ∧
    (Dma.store d v).page = v := by
  constructor
  · rw [List.foldl_append]
    show Dma.load (Dma.store _ v) = v
    generalize List.foldl Dma.store d vs = x
    obtain ⟨pg, st, om⟩ := x
    cases st <;> rfl
  · obtain ⟨pg, st, om⟩ := d
    cases st <;> rfl

/-- C10: `enabled` returns `false` exactly in the `Off` state, `cycle`
panics (modelled as `none`) exactly in the `Off` state, and under the
precondition `enabled = true` the panic is unreachable, i.e. `cycle` is
total. -/
theorem dma_enabled_cycle_total (bus : Nat → Nat) (d : Dma) :
    (Dma.enabled d = false ↔ d.state = DmaState.off) ∧
    (Dma.cycle bus d = none ↔ d.state = DmaState.off) ∧
    (Dma.enabled d = true → (Dma.cycle bus d).isSome = true) := by
  obtain ⟨pg, st, om⟩ := d
  cases st <;> simp [Dma.enabled, Dma.cycle]

/-- C10 witness: an `Active` engine is enabled and its cycle does not panic;
the `Off` equivalences hold there as well. -/
theorem dma_enabled_cycle_total_witness :
    (Dma.enabled (Dma.mk 0 (DmaState.on 2 9) (fun _ => 0)) = false ↔
      (Dma.mk 0 (DmaState.on 2 9) (fun _ => 0)).state = DmaState.off) ∧
    (Dma.cycle (fun _ => 0) (Dma.mk 0 (DmaState.on 2 9) (fun _ => 0)) = none ↔
      (Dma.mk 0 (DmaState.on 2 9) (fun _ => 0)).state = DmaState.off) ∧
    (Dma.enabled (Dma.mk 0 (DmaState.on 2 9) (fun _ => 0)) = true →
      (Dma.cycle (fun _ => 0) (Dma.mk 0 (DmaState.on 2 9) (fun _ => 0))).isSome = true) :=
  dma_enabled_cycle_total (fun _ => 0) (Dma.mk 0 (DmaState.on 2 9) (fun _ => 0))

/-! ### SM83 CPU register file, from `core/src/hw/cpu/sm83`

The register-file struct itself (`sm83/mod.rs`) is not among the sources;
its shape is taken from the spec's data model (§3): 8-bit registers
`A F B C D E H L` viewable as pairs, 16-bit `SP`/`PC`. Loads mask to the
register width. -/

structure Cpu where
  a : Nat
  f : Nat
  b : Nat
  c : Nat
  d : Nat
  e : Nat
  h : Nat
  l : Nat
  sp : Nat
  pc : Nat
deriving DecidableEq, Repr

def Cpu.loadF (cpu : Cpu) : Nat := cpu.f % 256

def Cpu.loadBC (cpu : Cpu) : Nat := cpu.b % 256 * 256 + cpu.c % 256

def Cpu.loadDE (cpu : Cpu) : Nat := cpu.d % 256 * 256 + cpu.e % 256

def Cpu.loadHL (cpu : Cpu) : Nat := cpu.h % 256 * 256 + cpu.l % 256

def Cpu.loadSP (cpu : Cpu) : Nat := cpu.sp % 65536

def Cpu.storeHL (cpu : Cpu) (v : Nat) : Cpu :=
  { cpu with h := v / 256 % 256, l := v % 256 }

def Cpu.storeSP (cpu : Cpu) (v : Nat) : Cpu := { cpu with sp := v % 65536 }

def Cpu.storeF (cpu : Cpu) (v : Nat) : Cpu := { cpu with f := v % 256 }

/-- Flag bit masks in `F`: `Z` bit 7, `N` bit 6, `H` bit 5, `C` bit 4 (§3). -/
def maskZ : Nat := 0x80

def maskN : Nat := 0x40

def maskH : Nat := 0x20

def maskC : Nat := 0x10

/-- Modelled from the spec: `Flag::set` of `sm83/mod.rs` (absent from the
sources) sets or clears one flag bit in the `F` byte. -/
def flagSet (mask : Nat) (enable : Bool) (flags : Nat) : Nat :=
  if enable then flags ||| mask else flags &&& (0xff ^^^ mask)

/-! ### `STOP`, from `core/src/hw/cpu/sm83/insn/exec/stop.rs` -/

/-- CPU errors surfaced by instruction execution (`Error::Opcode`,
`Error::Unimplemented`). -/
inductive CpuError where
  | opcode (code : Nat) : CpuError
  | unimplemented (code : Nat) : CpuError
deriving DecidableEq, Repr

/-- Embeds `execute` from `stop.rs`. With `debugAssertions = true` (the
`#[cfg(debug_assertions)]` branch) a recognized `0x10` surfaces
`Error::Unimplemented(0x10)`; otherwise it completes with `Ok(None)`.
The function never touches the CPU state (`_: &mut Cpu`), so the CPU is
returned unchanged. `Option Unit` stands for `Option<Operation>` (`none` =
instruction finished). -/
def stopExecute (debugAssertions : Bool) (code : Nat) (cpu : Cpu) :
    Except CpuError (Option Unit) × Cpu :=
  if code ≠ 0x10 then (Except.error (CpuError.opcode code), cpu)
  else if debugAssertions then (Except.error (CpuError.unimplemented code), cpu)
  else (Except.ok none, cpu)

/-- Modelled from the spec: the opcode fetch step (`sm83/mod.rs`, absent
from the sources) reads the byte at `PC` and increments `PC` (§4.3). -/
def fetchAdvance (cpu : Cpu) : Cpu := { cpu with pc := (cpu.pc + 1) % 65536 }

/-- One full `STOP` instruction: the fetch consumes opcode `0x10` and
advances `PC`, then `Stop::Execute` runs. -/
def stopInstr (debugAssertions : Bool) (cpu : Cpu) :
    Except CpuError (Option Unit) × Cpu :=
  stopExecute debugAssertions 0x10 (fetchAdvance cpu)

/-- C2 counterexample: starting from `PC = 0` (opcode `0x10` at address 0),
after the `STOP` instruction `PC = 1`, one byte past the opcode -- not two
bytes past it as the claim states; the byte following `0x10` is not
skipped. -/
theorem stop_pc_counterexample :
    (stopInstr true (Cpu.mk 0 0 0 0 0 0 0 0 0 0)).2.pc = 1 ∧
    (stopInstr true (Cpu.mk 0 0 0 0 0 0 0 0 0 0)).2.pc ≠ 2 := by
  constructor <;> decide

/-- C2 (amended): `STOP` is recognized: on opcode `0x10` the debug build
surfaces `CpuError::Unimplemented(0x10)` (the release build completes with
no error), the execute step leaves the CPU exactly as the fetch left it,
and `PC` ends one byte past the opcode -- the byte following `0x10` is not
skipped. -/
theorem stop_recognized_noop (debugAssertions : Bool) (cpu : Cpu) :
    (stopInstr debugAssertions cpu).2 = fetchAdvance cpu ∧
    (stopInstr debugAssertions cpu).2.pc = (cpu.pc + 1) % 65536 ∧
    (debugAssertions = true →
      (stopInstr debugAssertions cpu).1 =
        Except.error (CpuError.unimplemented 0x10)) ∧
    (debugAssertions = false →
      (stopInstr debugAssertions cpu).1 = Except.ok none) := by
  cases debugAssertions <;> simp [stopInstr, stopExecute, fetchAdvance]

/-- C2 witness: the amended behavior checked at a concrete CPU state in a
debug build. -/
theorem stop_recognized_noop_witness :
    (stopInstr true (Cpu.mk 1 2 3 4 5 6 7 8 9 10)).2 =
      fetchAdvance (Cpu.mk 1 2 3 4 5 6 7 8 9 10) ∧
    (stopInstr true (Cpu.mk 1 2 3 4 5 6 7 8 9 10)).2.pc = (10 + 1) % 65536 ∧
    (true = true →
      (stopInstr true (Cpu.mk 1 2 3 4 5 6 7 8 9 10)).1 =
        Except.error (CpuError.unimplemented 0x10)) ∧
    (true = false →
      (stopInstr true (Cpu.mk 1 2 3 4 5 6 7 8 9 10)).1 = Except.ok none) :=
  stop_recognized_noop true (Cpu.mk 1 2 3 4 5 6 7 8 9 10)

/-! ### 16-bit adds, from `core/src/hw/cpu/sm83/insn/exec/addw.rs` -/

/-- Embeds `execute` from `addw.rs`: `HL := op1 + op2` with `u16` wrapping;
flags `N := 0`, `H := (op1 & 0xFFF) + (op2 & 0xFFF) > 0xFFF`, `C :=` the
16-bit carry, set in that order on the loaded `F`; `Z` untouched. -/
def addwExecute (cpu : Cpu) (op1 op2 : Nat) : Cpu :=
  let res := (op1 + op2) % 65536
  let carry : Bool := decide (65536 ≤ op1 + op2)
  let cpu := cpu.storeHL res
  let flags := cpu.loadF
  let flags := flagSet maskN false flags
  let flags := flagSet maskH (decide (0x0fff < (op1 &&& 0x0fff) + (op2 &&& 0x0fff))) flags
  let flags := flagSet maskC carry flags
  cpu.storeF flags

/-- Embeds the operand selection of `fetch` from `addw.rs` for the four
`ADD HL,rr` opcodes; `none` on any other opcode (the `0xE8` path is
embedded separately below). -/
def addwOperands (code : Nat) (cpu : Cpu) : Option (Nat × Nat) :=
  match code with
  | 0x09 => some (cpu.loadHL, cpu.loadBC)
  | 0x19 => some (cpu.loadHL, cpu.loadDE)
  | 0x29 => some (cpu.loadHL, cpu.loadHL)
  | 0x39 => some (cpu.loadHL, cpu.loadSP)
  | _ => none

/-- The full `ADD HL,rr` instruction: operand fetch then execute. -/
def addwInstr (code : Nat) (cpu : Cpu) : Option Cpu :=
  (addwOperands code cpu).map (fun x => addwExecute cpu x.1 x.2)

/-- The second operand of `ADD HL,rr`, as selected by `fetch`. -/
def addwSrc (code : Nat) (cpu : Cpu) : Nat :=
  match code with
  | 0x09 => cpu.loadBC
  | 0x19 => cpu.loadDE
  | 0x29 => cpu.loadHL
  | 0x39 => cpu.loadSP
  | _ => 0

/-- Sign extension of a byte to 16 bits (`e8 as i8 as u16`). -/
def signext8 (v : Nat) : Nat :=
  if v % 256 < 128 then v % 256 else v % 256 + 0xff00

/-- Embeds `execute_0xe8` from `addw.rs`: `SP := SP + (e8 as i8 as u16)`
with `u16` wrapping; `Z := 0`, `N := 0`, `H` and `C` from the unsigned low
nibble/byte of the operands, set in that order. -/
def addSpExecute (cpu : Cpu) (e8 : Nat) : Cpu :=
  let op1 := cpu.loadSP
  let op2 := signext8 e8
  let res := (op1 + op2) % 65536
  let cpu := cpu.storeSP res
  let flags := cpu.loadF
  let flags := flagSet maskZ false flags
  let flags := flagSet maskN false flags
  let flags := flagSet maskH (decide (0x000f < (op1 &&& 0x000f) + (op2 &&& 0x000f))) flags
  let flags := flagSet maskC (decide (0x00ff < (op1 &&& 0x00ff) + (op2 &&& 0x00ff))) flags
  cpu.storeF flags

theorem and_mask15 (x : Nat) : x &&& 15 = x % 16 := by
  have h := Nat.and_pow_two_sub_one_eq_mod x 4
  norm_num at h
  exact h

theorem and_mask255 (x : Nat) : x &&& 255 = x % 256 := by
  have h := Nat.and_pow_two_sub_one_eq_mod x 8
  norm_num at h
  exact h

theorem and_mask4095 (x : Nat) : x &&& 4095 = x % 4096 := by
  have h := Nat.and_pow_two_sub_one_eq_mod x 12
  norm_num at h
  exact h

theorem testBit_or_false {m : Nat} (x : Nat) (i : Nat) (h : m.testBit i = false) :
    (x ||| m).testBit i = x.testBit i := by
  rw [Nat.testBit_or, h, Bool.or_false]

theorem testBit_and_true {m : Nat} (x : Nat) (i : Nat) (h : m.testBit i = true) :
    (x &&& m).testBit i = x.testBit i := by
  rw [Nat.testBit_and, h, Bool.and_true]

theorem testBit_or_true {m : Nat} (x : Nat) (i : Nat) (h : m.testBit i = true) :
    (x ||| m).testBit i = true := by
  rw [Nat.testBit_or, h, Bool.or_true]

theorem testBit_and_false {m : Nat} (x : Nat) (i : Nat) (h : m.testBit i = false) :
    (x &&& m).testBit i = false := by
  rw [Nat.testBit_and, h, Bool.and_false]

/-- Bit `i < 8` of a flag byte after `flagSet mask b`: the targeted bit
becomes `b`; any untargeted low bit is preserved. -/
theorem flagSet_testBit_self (mask : Nat) (b : Bool) (f i : Nat)
    (hself : mask.testBit i = true) (hcompl : (0xff ^^^ mask).testBit i = false) :
    (flagSet mask b f).testBit i = b := by
  unfold flagSet
  cases b with
  | false => simp [testBit_and_false f i hcompl]
  | true => simp [testBit_or_true f i hself]

theorem flagSet_testBit_other (mask : Nat) (b : Bool) (f i : Nat)
    (hself : mask.testBit i = false) (hcompl : (0xff ^^^ mask).testBit i = true) :
    (flagSet mask b f).testBit i = f.testBit i := by
  unfold flagSet
  cases b with
  | false => simp [testBit_and_true f i hcompl]
  | true => simp [testBit_or_false f i hself]

theorem testBit_mod256 (x i : Nat) (h : i < 8) : (x % 256).testBit i = x.testBit i := by
  rw [show (256 : Nat) = 2 ^ 8 from by norm_num, Nat.testBit_mod_two_pow]
  simp [h]

theorem signext8_mod16 (v : Nat) : signext8 v % 16 = v % 16 := by
  unfold signext8
  split_ifs <;> omega

theorem signext8_mod256 (v : Nat) : signext8 v % 256 = v % 256 := by
  unfold signext8
  split_ifs <;> omega

/-- Full characterization of `addwExecute`: result `HL`, the `H`/`C`/`N`
flag bits, and preservation of `Z`. -/
theorem addwExecute_spec (cpu : Cpu) (op1 op2 : Nat) :
    (addwExecute cpu op1 op2).loadHL = (op1 + op2) % 65536 ∧
    (addwExecute cpu op1 op2).f.testBit 5 =
      decide (0x0fff < op1 % 4096 + op2 % 4096) ∧
    (addwExecute cpu op1 op2).f.testBit 4 = decide (65536 ≤ op1 + op2) ∧
    (addwExecute cpu op1 op2).f.testBit 6 = false ∧
    (addwExecute cpu op1 op2).f.testBit 7 = cpu.loadF.testBit 7 := by
  have hbase : (addwExecute cpu op1 op2).f =
      flagSet maskC (decide (65536 ≤ op1 + op2))
        (flagSet maskH (decide (0x0fff < (op1 &&& 0x0fff) + (op2 &&& 0x0fff)))
          (flagSet maskN false (cpu.f % 256))) % 256 := rfl
  refine ⟨?_, ?_, ?_, ?_, ?_⟩
  · simp only [addwExecute, Cpu.storeHL, Cpu.storeF, Cpu.loadHL]
    omega
  · rw [hbase, testBit_mod256 _ 5 (by omega),
        flagSet_testBit_other maskC _ _ 5 (by decide) (by decide),
        flagSet_testBit_self maskH _ _ 5 (by decide) (by decide),
        and_mask4095, and_mask4095]
  · rw [hbase, testBit_mod256 _ 4 (by omega),
        flagSet_testBit_self maskC _ _ 4 (by decide) (by decide)]
  · rw [hbase, testBit_mod256 _ 6 (by omega),
        flagSet_testBit_other maskC _ _ 6 (by decide) (by decide),
        flagSet_testBit_other maskH _ _ 6 (by decide) (by decide),
        flagSet_testBit_self maskN _ _ 6 (by decide) (by decide)]
  · rw [hbase, testBit_mod256 _ 7 (by omega),
        flagSet_testBit_other maskC _ _ 7 (by decide) (by decide),
        flagSet_testBit_other maskH _ _ 7 (by decide) (by decide),
        flagSet_testBit_other maskN _ _ 7 (by decide) (by decide)]
    rfl

/-- C4: for every CPU state, each of the opcodes `0x09/0x19/0x29/0x39`
stores `HL + rr mod 2^16` into `HL` (with `rr` the pair selected by the
opcode), sets `H` iff `(HL & 0xFFF) + (rr & 0xFFF) > 0xFFF`, sets `C` iff
the 16-bit addition overflows, clears `N`, and leaves `Z` unchanged. -/
theorem addw_hl_flags (cpu : Cpu) (code : Nat)
    (hcode : code = 0x09 ∨ code = 0x19 ∨ code = 0x29 ∨ code = 0x39) :
    addwInstr code cpu = some (addwExecute cpu cpu.loadHL (addwSrc code cpu)) ∧
    (addwExecute cpu cpu.loadHL (addwSrc code cpu)).loadHL =
      (cpu.loadHL + addwSrc code cpu) % 65536 ∧
    (addwExecute cpu cpu.loadHL (addwSrc code cpu)).f.testBit 5 =
      decide (0x0fff < cpu.loadHL % 4096 + addwSrc code cpu % 4096) ∧
    (addwExecute cpu cpu.loadHL (addwSrc code cpu)).f.testBit 4 =
      decide (65536 ≤ cpu.loadHL + addwSrc code cpu) ∧
    (addwExecute cpu cpu.loadHL (addwSrc code cpu)).f.testBit 6 = false ∧
    (addwExecute cpu cpu.loadHL (addwSrc code cpu)).f.testBit 7 =
      cpu.loadF.testBit 7 := by
  have hspec := addwExecute_spec cpu cpu.loadHL (addwSrc code cpu)
  refine ⟨?_, hspec.1, hspec.2.1, hspec.2.2.1, hspec.2.2.2.1, hspec.2.2.2.2⟩
  rcases hcode with h | h | h | h <;> subst h <;> rfl

/-- C4 witness: `HL = 0x0FFF`, `BC = 0x0001`, `F = 0x00`, opcode `0x09` --
the spec's concrete scenario (after: `HL = 0x1000`, `H = 1`, `C = 0`,
`N = 0`, `Z` unchanged). -/
theorem addw_hl_flags_witness :
    ((0x09 : Nat) = 0x09 ∨ (0x09 : Nat) = 0x19 ∨ (0x09 : Nat) = 0x29 ∨
      (0x09 : Nat) = 0x39) ∧
    (addwInstr 0x09 (Cpu.mk 0 0 0 1 0 0 0x0f 0xff 0 0) =
      some (addwExecute (Cpu.mk 0 0 0 1 0 0 0x0f 0xff 0 0)
        (Cpu.mk 0 0 0 1 0 0 0x0f 0xff 0 0).loadHL
        (addwSrc 0x09 (Cpu.mk 0 0 0 1 0 0 0x0f 0xff 0 0))) ∧
    (addwExecute (Cpu.mk 0 0 0 1 0 0 0x0f 0xff 0 0)
        (Cpu.mk 0 0 0 1 0 0 0x0f 0xff 0 0).loadHL
        (addwSrc 0x09 (Cpu.mk 0 0 0 1 0 0 0x0f 0xff 0 0))).loadHL =
      ((Cpu.mk 0 0 0 1 0 0 0x0f 0xff 0 0).loadHL +
        addwSrc 0x09 (Cpu.mk 0 0 0 1 0 0 0x0f 0xff 0 0)) % 65536 ∧
    (addwExecute (Cpu.mk 0 0 0 1 0 0 0x0f 0xff 0 0)
        (Cpu.mk 0 0 0 1 0 0 0x0f 0xff 0 0).loadHL
        (addwSrc 0x09 (Cpu.mk 0 0 0 1 0 0 0x0f 0xff 0 0))).f.testBit 5 =
      decide (0x0fff < (Cpu.mk 0 0 0 1 0 0 0x0f 0xff 0 0).loadHL % 4096 +
        addwSrc 0x09 (Cpu.mk 0 0 0 1 0 0 0x0f 0xff 0 0) % 4096) ∧
    (addwExecute (Cpu.mk 0 0 0 1 0 0 0x0f 0xff 0 0)
        (Cpu.mk 0 0 0 1 0 0 0x0f 0xff 0 0).loadHL
        (addwSrc 0x09 (Cpu.mk 0 0 0 1 0 0 0x0f 0xff 0 0))).f.testBit 4 =
      decide (65536 ≤ (Cpu.mk 0 0 0 1 0 0 0x0f 0xff 0 0).loadHL +
        addwSrc 0x09 (Cpu.mk 0 0 0 1 0 0 0x0f 0xff 0 0)) ∧
    (addwExecute (Cpu.mk 0 0 0 1 0 0 0x0f 0xff 0 0)
        (Cpu.mk 0 0 0 1 0 0 0x0f 0xff 0 0).loadHL
        (addwSrc 0x09 (Cpu.mk 0 0 0 1 0 0 0x0f 0xff 0 0))).f.testBit 6 = false ∧
    (addwExecute (Cpu.mk 0 0 0 1 0 0 0x0f 0xff 0 0)
        (Cpu.mk 0 0 0 1 0 0 0x0f 0xff 0 0).loadHL
        (addwSrc 0x09 (Cpu.mk 0 0 0 1 0 0 0x0f 0xff 0 0))).f.testBit 7 =
      (Cpu.mk 0 0 0 1 0 0 0x0f 0xff 0 0).loadF.testBit 7) :=
  ⟨Or.inl rfl, addw_hl_flags (Cpu.mk 0 0 0 1 0 0 0x0f 0xff 0 0) 0x09 (Or.inl rfl)⟩

/-- C5: for every CPU state and byte `e8`, `ADD SP,e8` stores
`SP + signext(e8) mod 2^16` into `SP`, clears `Z` and `N`, sets `H` iff
`(SP & 0x0F) + (e8 & 0x0F) > 0x0F`, and sets `C` iff
`(SP & 0xFF) + (e8 & 0xFF) > 0xFF`. -/
theorem addsp_e8_flags (cpu : Cpu) (e8 : Nat) :
    (addSpExecute cpu e8).loadSP = (cpu.loadSP + signext8 e8) % 65536 ∧
    (addSpExecute cpu e8).f.testBit 7 = false ∧
    (addSpExecute cpu e8).f.testBit 6 = false ∧
    (addSpExecute cpu e8).f.testBit 5 =
      decide (0x000f < cpu.loadSP % 16 + e8 % 16) ∧
    (addSpExecute cpu e8).f.testBit 4 =
      decide (0x00ff < cpu.loadSP % 256 + e8 % 256) := by
  have hbase : (addSpExecute cpu e8).f =
      flagSet maskC
        (decide (0x00ff < (cpu.loadSP &&& 0x00ff) + (signext8 e8 &&& 0x00ff)))
        (flagSet maskH
          (decide (0x000f < (cpu.loadSP &&& 0x000f) + (signext8 e8 &&& 0x000f)))
          (flagSet maskN false (flagSet maskZ false (cpu.f % 256)))) % 256 := rfl
  refine ⟨?_, ?_, ?_, ?_, ?_⟩
  · simp only [addSpExecute, Cpu.storeSP, Cpu.storeF, Cpu.loadSP]
    omega
  · rw [hbase, testBit_mod256 _ 7 (by omega),
        flagSet_testBit_other maskC _ _ 7 (by decide) (by decide),
        flagSet_testBit_other maskH _ _ 7 (by decide) (by decide),
        flagSet_testBit_other maskN _ _ 7 (by decide) (by decide),
        flagSet_testBit_self maskZ _ _ 7 (by decide) (by decide)]
  · rw [hbase, testBit_mod256 _ 6 (by omega),
        flagSet_testBit_other maskC _ _ 6 (by decide) (by decide),
        flagSet_testBit_other maskH _ _ 6 (by decide) (by decide),
        flagSet_testBit_self maskN _ _ 6 (by decide) (by decide)]
  · rw [hbase, testBit_mod256 _ 5 (by omega),
        flagSet_testBit_other maskC _ _ 5 (by decide) (by decide),
        flagSet_testBit_self maskH _ _ 5 (by decide) (by decide),
        and_mask15, and_mask15]
    simp only [signext8_mod16]
  · rw [hbase, testBit_mod256 _ 4 (by omega),
        flagSet_testBit_self maskC _ _ 4 (by decide) (by decide),
        and_mask255, and_mask255]
    simp only [signext8_mod256]

/-! ### PPU HBlank step, from `core/src/hw/ppu/exec/hblank.rs` -/

/-- PPU mode tags (`Mode::{Scan, Draw, HBlank, VBlank}`). -/
inductive PpuMode where
  | scan : PpuMode
  | draw : PpuMode
  | hblank : PpuMode
  | vblank : PpuMode
deriving DecidableEq, Repr

/-- The PPU state touched by the HBlank step: the dot clock, the `LY`
register (a `u8`, masked on store), the internal window line counter, and a
flag recording that the VBlank interrupt was requested via the PIC
(`ppu.pic.borrow_mut().req(Interrupt::VBlank)`). -/
structure Ppu where
  dot : Nat
  ly : Nat
  winln : Nat
  intVBlank : Bool
deriving DecidableEq, Repr

/-- Screen height, 144 lines (`SCREEN.height`; the constant lives in
`ppu/mod.rs`, absent from the sources -- the spec fixes the 160×144 LCD). -/
def screenHeight : Nat := 144

/-- Embeds `HBlank::exec`: bump `dot`; below 456 stay in HBlank; at 456
increment `LY`, reset `dot`, and enter `Scan` when the new `LY` is below
the screen height, else reset `winln`, request the VBlank interrupt and
enter `VBlank`. -/
def hblankExec (p : Ppu) : PpuMode × Ppu :=
  let p := { p with dot := p.dot + 1 }
  if p.dot < 456 then (PpuMode.hblank, p)
  else
    let ly := (p.ly % 256 + 1) % 256
    let p := { p with ly := ly, dot := 0 }
    if ly < screenHeight then (PpuMode.scan, p)
    else (PpuMode.vblank, { p with winln := 0, intVBlank := true })

/-- C6: from a state with `dot < 456` and `LY < 144`, a step whose bumped
dot is still below 456 only increments `dot`; the step reaching dot 456
increments `LY` and resets `dot`, entering `VBlank` (and requesting the
VBlank interrupt) exactly when the new `LY` is 144 and `Scan` otherwise;
and both `dot < 456` and `LY < 154` still hold afterwards. -/
theorem hblank_step (p : Ppu) (hdot : p.dot < 456) (hly : p.ly < 144) :
    (p.dot + 1 < 456 →
      hblankExec p = (PpuMode.hblank, { p with dot := p.dot + 1 })) ∧
    (p.dot + 1 = 456 →
      (hblankExec p).2.ly = p.ly + 1 ∧ (hblankExec p).2.dot = 0 ∧
      (p.ly + 1 = 144 →
        (hblankExec p).1 = PpuMode.vblank ∧ (hblankExec p).2.intVBlank = true) ∧
      (p.ly + 1 < 144 →
        (hblankExec p).1 = PpuMode.scan ∧
        (hblankExec p).2.intVBlank = p.intVBlank)) ∧
    (hblankExec p).2.dot < 456 ∧ (hblankExec p).2.ly < 154 := by
  obtain ⟨dot, ly, winln, intv⟩ := p
  simp only at hdot hly
  have hlym : ly % 256 = ly := Nat.mod_eq_of_lt (by omega)
  have hly1 : (ly % 256 + 1) % 256 = ly + 1 := by omega
  unfold hblankExec
  simp only [screenHeight, hly1]
  by_cases hd : dot + 1 < 456
  · simp [hd]
    omega
  · simp only [if_neg hd]
    by_cases hl : ly + 1 < 144
    · simp [hl]
      omega
    · simp [hl]
      omega

/-- C6 witness: the boundary step at `dot = 455`, `LY = 143` enters VBlank
with the interrupt requested, and the invariants are preserved. -/
theorem hblank_step_witness :
    ((Ppu.mk 455 143 7 false).dot + 1 < 456 →
      hblankExec (Ppu.mk 455 143 7 false) =
        (PpuMode.hblank, { Ppu.mk 455 143 7 false with dot := 455 + 1 })) ∧
    ((Ppu.mk 455 143 7 false).dot + 1 = 456 →
      (hblankExec (Ppu.mk 455 143 7 false)).2.ly = 143 + 1 ∧
      (hblankExec (Ppu.mk 455 143 7 false)).2.dot = 0 ∧
      ((143 : Nat) + 1 = 144 →
        (hblankExec (Ppu.mk 455 143 7 false)).1 = PpuMode.vblank ∧
        (hblankExec (Ppu.mk 455 143 7 false)).2.intVBlank = true) ∧
      ((143 : Nat) + 1 < 144 →
        (hblankExec (Ppu.mk 455 143 7 false)).1 = PpuMode.scan ∧
        (hblankExec (Ppu.mk 455 143 7 false)).2.intVBlank =
          (Ppu.mk 455 143 7 false).intVBlank)) ∧
    (hblankExec (Ppu.mk 455 143 7 false)).2.dot < 456 ∧
    (hblankExec (Ppu.mk 455 143 7 false)).2.ly < 154 :=
  hblank_step (Ppu.mk 455 143 7 false) (by decide) (by decide)

/-! ### Top-level clock demultiplexer, from `src/model/dmg/mod.rs`
(`Machine for GameBoy`, `fn cycle`) -/

/-- The device steps a single top-level tick can take, in source order:
the PIC pending-check wake of the CPU, one CPU machine cycle, one PPU dot,
one timer tick. (The function contains no DMA step.) -/
inductive Event where
  | cpuWake : Event
  | cpuStep : Event
  | ppuStep : Event
  | timerStep : Event
  | dmaStep : Event
deriving DecidableEq, Repr

/-- The inputs `GameBoy::cycle` branches on: the tick counter
(`self.cycle`, a `usize`), whether the PIC has a pending interrupt
(`self.pic.borrow().int().is_some()`), and each device's `enabled()`. -/
structure GameBoySched where
  cycle : Nat
  picPending : Bool
  cpuEnabled : Bool
  ppuEnabled : Bool
  timerEnabled : Bool
deriving DecidableEq, Repr

/-- Embeds `Machine::cycle for GameBoy` as the ordered list of device steps
performed in one tick; the devices' own state changes (in files absent from
the sources) are abstracted as events. -/
def gbCycleEvents (g : GameBoySched) : List Event :=
  (if g.picPending = true then [Event.cpuWake] else []) ++
  (if g.cycle % 4 = 0 ∧ g.cpuEnabled = true then [Event.cpuStep] else []) ++
  (if g.ppuEnabled = true then [Event.ppuStep] else []) ++
  (if g.timerEnabled = true then [Event.timerStep] else [])

/-- Embeds the tick-counter update `self.cycle = self.cycle.wrapping_add(1)`. -/
def gbCycleNext (g : GameBoySched) : GameBoySched :=
  { g with cycle := (g.cycle + 1) % 2 ^ 64 }

/-- C7 counterexample: on a tick with every device enabled and an interrupt
pending, the top-level `cycle` performs no DMA step at all -- contradicting
the claim that each tick ends with one DMA byte after the timer increment. -/
theorem gb_cycle_no_dma_counterexample :
    Event.dmaStep ∉ gbCycleEvents (GameBoySched.mk 0 true true true true) := by
  decide

/-- C7 (amended): each top-level tick advances the devices in the fixed
order PIC wake-check, then CPU (only on ticks with counter divisible by 4,
and only while enabled), then one PPU dot, then one timer increment; there
is no top-level DMA step. -/
theorem gb_cycle_order (g : GameBoySched) :
    List.Sublist (gbCycleEvents g)
      [Event.cpuWake, Event.cpuStep, Event.ppuStep, Event.timerStep] ∧
    Event.dmaStep ∉ gbCycleEvents g ∧
    (Event.cpuWake ∈ gbCycleEvents g ↔ g.picPending = true) ∧
    (Event.cpuStep ∈ gbCycleEvents g ↔ (g.cycle % 4 = 0 ∧ g.cpuEnabled = true)) ∧
    (Event.ppuStep ∈ gbCycleEvents g ↔ g.ppuEnabled = true) ∧
    (Event.timerStep ∈ gbCycleEvents g ↔ g.timerEnabled = true) := by
  obtain ⟨n, pic, cpu, ppu, tmr⟩ := g
  by_cases hn : n % 4 = 0 <;>
    cases pic <;> cases cpu <;> cases ppu <;> cases tmr <;>
      simp [gbCycleEvents, hn]

/-- C7 witness: the order facts checked at a concrete tick (counter 4, all
devices enabled, interrupt pending). -/
theorem gb_cycle_order_witness :
    List.Sublist (gbCycleEvents (GameBoySched.mk 4 true true true true))
      [Event.cpuWake, Event.cpuStep, Event.ppuStep, Event.timerStep] ∧
    Event.dmaStep ∉ gbCycleEvents (GameBoySched.mk 4 true true true true) ∧
    (Event.cpuWake ∈ gbCycleEvents (GameBoySched.mk 4 true true true true) ↔
      (GameBoySched.mk 4 true true true true).picPending = true) ∧
    (Event.cpuStep ∈ gbCycleEvents (GameBoySched.mk 4 true true true true) ↔
      ((GameBoySched.mk 4 true true true true).cycle % 4 = 0 ∧
        (GameBoySched.mk 4 true true true true).cpuEnabled = true)) ∧
    (Event.ppuStep ∈ gbCycleEvents (GameBoySched.mk 4 true true true true) ↔
      (GameBoySched.mk 4 true true true true).ppuEnabled = true) ∧
    (Event.timerStep ∈ gbCycleEvents (GameBoySched.mk 4 true true true true) ↔
      (GameBoySched.mk 4 true true true true).timerEnabled = true) :=
  gb_cycle_order (GameBoySched.mk 4 true true true true)

/-! ### Memory bus, from `GameBoy::memmap` + `InOut::memmap`
(`src/model/dmg/mod.rs`) and `core/src/dev/unmapped.rs`

The `remus` bus itself is an external crate; its dispatch is modelled from
the spec (§4.1): the first region mapped that contains the address wins
(the boot ROM is mapped before the cartridge ROM and shadows it while
enabled; the `Unmapped` fallback is mapped last). Region bases and sizes
are those of the two `memmap` tables. -/

/-- The region an address resolves to. -/
inductive BusTarget where
  | boot : BusTarget
  | rom : BusTarget
  | vram : BusTarget
  | eram : BusTarget
  | wram : BusTarget
  | echo : BusTarget
  | oam : BusTarget
  | mmio : BusTarget
  | hram : BusTarget
  | pic : BusTarget
  | unmapped : BusTarget
deriving DecidableEq, Repr

/-- Which offsets into `FF00–FF7F` the I/O sub-bus maps (`InOut::memmap`):
P1 at 0, serial at 1–2, timer at 4–7, IF at 0xF, sound at 0x10–0x26, wave
at 0x30–0x3F, LCD at 0x40–0x4B, boot-disable at 0x50; the rest fall
through. -/
def mmioContains (off : Nat) : Bool :=
  decide (off = 0 ∨ (1 ≤ off ∧ off ≤ 2) ∨ (4 ≤ off ∧ off ≤ 7) ∨ off = 0x0f ∨
    (0x10 ≤ off ∧ off ≤ 0x26) ∨ (0x30 ≤ off ∧ off ≤ 0x3f) ∨
    (0x40 ≤ off ∧ off ≤ 0x4b) ∨ off = 0x50)

/-- Resolves an address against the `GameBoy::memmap` table, first match
first: boot (256 B, while enabled), cartridge ROM (32 KiB), VRAM, ERAM,
WRAM (8 KiB each), Echo (7680 B viewing WRAM), OAM (160 B), the I/O bus,
HRAM (127 B), IE, and the full-space `Unmapped` fallback mapped last. -/
def busTarget (bootEnabled : Bool) (a : Nat) : BusTarget :=
  if bootEnabled = true ∧ a < 0x100 then BusTarget.boot
  else if a < 0x8000 then BusTarget.rom
  else if a < 0xa000 then BusTarget.vram
  else if a < 0xc000 then BusTarget.eram
  else if a < 0xe000 then BusTarget.wram
  else if a < 0xfe00 then BusTarget.echo
  else if a < 0xfea0 then BusTarget.oam
  else if 0xff00 ≤ a ∧ a < 0xff80 ∧ mmioContains (a - 0xff00) = true then
    BusTarget.mmio
  else if 0xff80 ≤ a ∧ a < 0xffff then BusTarget.hram
  else if a = 0xffff then BusTarget.pic
  else BusTarget.unmapped

/-- The bus-visible stores: boot ROM and cartridge ROM (read-only here:
writes to ROM go to the MBC control logic, writes to the boot ROM are
rejected), the RAM regions, the I/O registers as a byte store, and `IE`. -/
structure BusState where
  bootEnabled : Bool
  bootRom : Nat → Nat
  rom : Nat → Nat
  vram : Nat → Nat
  eram : Nat → Nat
  wram : Nat → Nat
  oam : Nat → Nat
  mmio : Nat → Nat
  hram : Nat → Nat
  ie : Nat

/-- Bus read: dispatch per `busTarget`; the Echo view reads WRAM at
`a - 0xE000`; the `Unmapped` fallback reads `0xFF`
(`Null::with(0xff)` in `unmapped.rs`). -/
def busRead (st : BusState) (a : Nat) : Nat :=
  match busTarget st.bootEnabled a with
  | BusTarget.boot => st.bootRom a
  | BusTarget.rom => st.rom a
  | BusTarget.vram => st.vram (a - 0x8000)
  | BusTarget.eram => st.eram (a - 0xa000)
  | BusTarget.wram => st.wram (a - 0xc000)
  | BusTarget.echo => st.wram (a - 0xe000)
  | BusTarget.oam => st.oam (a - 0xfe00)
  | BusTarget.mmio => st.mmio (a - 0xff00)
  | BusTarget.hram => st.hram (a - 0xff80)
  | BusTarget.pic => st.ie
  | BusTarget.unmapped => 0xff

/-- Bus write: dispatch per `busTarget`; ROM-region writes do not touch the
buffers; the `Unmapped` fallback discards the write
(`fn write` in `unmapped.rs` only logs). -/
def busWrite (st : BusState) (a v : Nat) : BusState :=
  match busTarget st.bootEnabled a with
  | BusTarget.boot => st
  | BusTarget.rom => st
  | BusTarget.vram =>
      { st with vram := fun k => if k = a - 0x8000 then v % 256 else st.vram k }
  | BusTarget.eram =>
      { st with eram := fun k => if k = a - 0xa000 then v % 256 else st.eram k }
  | BusTarget.wram =>
      { st with wram := fun k => if k = a - 0xc000 then v % 256 else st.wram k }
  | BusTarget.echo =>
      { st with wram := fun k => if k = a - 0xe000 then v % 256 else st.wram k }
  | BusTarget.oam =>
      { st with oam := fun k => if k = a - 0xfe00 then v % 256 else st.oam k }
  | BusTarget.mmio =>
      { st with mmio := fun k => if k = a - 0xff00 then v % 256 else st.mmio k }
  | BusTarget.hram =>
      { st with hram := fun k => if k = a - 0xff80 then v % 256 else st.hram k }
  | BusTarget.pic => { st with ie := v % 256 }
  | BusTarget.unmapped => st

/-- C8: every address resolving to no mapped region -- in particular every
address of the prohibited window `0xFEA0–0xFEFF` -- reads `0xFF`, and
writing any byte there leaves the bus state completely unchanged, so a
subsequent read still yields `0xFF`. -/
theorem bus_unmapped_ff (st : BusState) (a v : Nat)
    (ha : (0xfea0 ≤ a ∧ a ≤ 0xfeff) ∨
      busTarget st.bootEnabled a = BusTarget.unmapped) :
    busTarget st.bootEnabled a = BusTarget.unmapped ∧
    busRead st a = 0xff ∧
    busWrite st a v = st ∧
    busRead (busWrite st a v) a = 0xff := by
  have htgt : busTarget st.bootEnabled a = BusTarget.unmapped := by
    rcases ha with ⟨h1, h2⟩ | h
    · have hb : ¬ (st.bootEnabled = true ∧ a < 0x100) :=
        fun hc => absurd hc.2 (by omega)
      have hr : ¬ a < 0x8000 := by omega
      have hv : ¬ a < 0xa000 := by omega
      have he : ¬ a < 0xc000 := by omega
      have hw : ¬ a < 0xe000 := by omega
      have hec : ¬ a < 0xfe00 := by omega
      have ho : ¬ a < 0xfea0 := by omega
      have hm : ¬ (0xff00 ≤ a ∧ a < 0xff80 ∧ mmioContains (a - 0xff00) = true) :=
        fun hc => absurd hc.1 (by omega)
      have hh : ¬ (0xff80 ≤ a ∧ a < 0xffff) := fun hc => absurd hc.1 (by omega)
      have hp : ¬ a = 0xffff := by omega
      unfold busTarget
      rw [if_neg hb, if_neg hr, if_neg hv, if_neg he, if_neg hw, if_neg hec,
          if_neg ho, if_neg hm, if_neg hh, if_neg hp]
    · exact h
  have hread : busRead st a = 0xff := by
    unfold busRead
    rw [htgt]
  have hwrite : busWrite st a v = st := by
    unfold busWrite
    rw [htgt]
  exact ⟨htgt, hread, hwrite, by rw [hwrite, hread]⟩

/-- C8 witness: the spec's concrete scenario -- address `0xFEA5` reads
`0xFF`, and writing `0xAA` there changes nothing. -/
theorem bus_unmapped_ff_witness :
    busTarget
        (BusState.mk false (fun _ => 0) (fun _ => 0) (fun _ => 0) (fun _ => 0)
          (fun _ => 0) (fun _ => 0) (fun _ => 0) (fun _ => 0) 0).bootEnabled
        0xfea5 = BusTarget.unmapped ∧
    busRead
        (BusState.mk false (fun _ => 0) (fun _ => 0) (fun _ => 0) (fun _ => 0)
          (fun _ => 0) (fun _ => 0) (fun _ => 0) (fun _ => 0) 0) 0xfea5 = 0xff ∧
    busWrite
        (BusState.mk false (fun _ => 0) (fun _ => 0) (fun _ => 0) (fun _ => 0)
          (fun _ => 0) (fun _ => 0) (fun _ => 0) (fun _ => 0) 0) 0xfea5 0xaa =
      BusState.mk false (fun _ => 0) (fun _ => 0) (fun _ => 0) (fun _ => 0)
        (fun _ => 0) (fun _ => 0) (fun _ => 0) (fun _ => 0) 0 ∧
    busRead
        (busWrite
          (BusState.mk false (fun _ => 0) (fun _ => 0) (fun _ => 0) (fun _ => 0)
            (fun _ => 0) (fun _ => 0) (fun _ => 0) (fun _ => 0) 0) 0xfea5 0xaa)
        0xfea5 = 0xff :=
  bus_unmapped_ff
    (BusState.mk false (fun _ => 0) (fun _ => 0) (fun _ => 0) (fun _ => 0)
      (fun _ => 0) (fun _ => 0) (fun _ => 0) (fun _ => 0) 0)
    0xfea5 0xaa (Or.inl (by omega))

end GameboySpec
